import Mathlib

/-!
Verification development for the storage-server repository (Bun/JS).

Shallow embedding of the object lifecycle engine:
- src/util/functions.js : hex encoding, AES-128-GCM encryption helpers
  (encryptAES128 / decryptAES128, generateAES128Key);
- src/util/web.js       : handleFile (GET/DELETE), handleInfo, handleUpload;
- src/app.js            : rateLimit, checkToken, the token-gating condition of
  the fetch dispatcher.

Machine integers are modelled as Nat/Int with explicit reductions mod 256 /
mod 2^32 at byte boundaries.  External libraries (zlib compression, the SHA-256
content hash, outbound fetch) are parameters of the embedding; the WebCrypto
AES-GCM primitive is implemented concretely (AES-128 block cipher in counter
mode with a GHASH authentication tag) because the decryption round trip claim
is about it.  Randomness (UUIDs, AES keys, IVs) is threaded as parameters.

Timestamps are epoch milliseconds as Int, sizes are Nat.
-/

namespace StorageServer

/-! ## Hex encoding (Buffer.toString("hex") / Buffer.from(str, "hex")) -/

def hexDigits : List Char := "0123456789abcdef".data

def hexDigitChar (n : Nat) : Char := hexDigits.getD n '0'

/-- Lowercase hex encoding of a byte list, two characters per byte, as
Buffer.prototype.toString("hex") produces. -/
def hexEncode : List Nat → List Char
  | [] => []
  | b :: bs => hexDigitChar (b / 16) :: hexDigitChar (b % 16) :: hexEncode bs

def hexCharVal (c : Char) : Nat :=
  if '0' ≤ c ∧ c ≤ '9' then c.toNat - 48
  else if 'a' ≤ c ∧ c ≤ 'f' then c.toNat - 87
  else if 'A' ≤ c ∧ c ≤ 'F' then c.toNat - 55
  else 0

/-- Decoding of a hex string into bytes, pairwise, as Buffer.from(s, "hex");
a trailing odd character is dropped. -/
def hexDecode : List Char → List Nat
  | c1 :: c2 :: rest => (16 * hexCharVal c1 + hexCharVal c2) :: hexDecode rest
  | [_] => []
  | [] => []

theorem hexCharVal_hexDigitChar : ∀ n < 16, hexCharVal (hexDigitChar n) = n := by decide

theorem hexDigitChar_lt_16 (n : Nat) (h : 16 ≤ n) : hexDigitChar n = '0' := by
  unfold hexDigitChar
  exact List.getD_eq_default _ _ (by simpa [hexDigits] using h)

theorem hexDecode_hexEncode (bs : List Nat) (h : ∀ b ∈ bs, b < 256) :
    hexDecode (hexEncode bs) = bs := by
  induction bs with
  | nil => rfl
  | cons b bs ih =>
    have hb : b < 256 := h b (by simp)
    have h1 : hexCharVal (hexDigitChar (b / 16)) = b / 16 :=
      hexCharVal_hexDigitChar _ (by omega)
    have h2 : hexCharVal (hexDigitChar (b % 16)) = b % 16 :=
      hexCharVal_hexDigitChar _ (by omega)
    simp only [hexEncode, hexDecode, h1, h2, ih (fun x hx => h x (by simp [hx]))]
    congr 1
    omega

theorem hexEncode_append (a b : List Nat) :
    hexEncode (a ++ b) = hexEncode a ++ hexEncode b := by
  induction a with
  | nil => rfl
  | cons x xs ih => simp [hexEncode, ih]

theorem hexEncode_length (bs : List Nat) : (hexEncode bs).length = 2 * bs.length := by
  induction bs with
  | nil => rfl
  | cons x xs ih => simp [hexEncode, ih]; omega

theorem mem_hexEncode (bs : List Nat) (c : Char) (h : c ∈ hexEncode bs) :
    ∃ n, c = hexDigitChar n := by
  induction bs with
  | nil => simp [hexEncode] at h
  | cons b bs ih =>
    simp only [hexEncode, List.mem_cons] at h
    rcases h with h | h | h
    · exact ⟨b / 16, h⟩
    · exact ⟨b % 16, h⟩
    · exact ih h

theorem Char_ofNat_toNat_hexDigitChar (n : Nat) :
    Char.ofNat (hexDigitChar n).toNat = hexDigitChar n := by
  rcases Nat.lt_or_ge n 16 with h | h
  · revert h
    revert n
    decide
  · rw [hexDigitChar_lt_16 n h]
    decide

/-! ## String / byte conversions (Buffer ↔ JS string, ASCII range) -/

/-- Bytes a JS string occupies on disk once written by Bun.write; all strings
the server writes are ASCII hex, for which UTF-8 is the identity on
code points. -/
def strBytes (s : String) : List Nat := s.data.map Char.toNat

/-- Reading file bytes back as a JS string (ASCII range). -/
def bytesStr (bs : List Nat) : String := String.mk (bs.map Char.ofNat)

theorem bytesStr_strBytes_hex (bs : List Nat) :
    bytesStr (strBytes (String.mk (hexEncode bs))) = String.mk (hexEncode bs) := by
  unfold bytesStr strBytes
  congr 1
  simp only [List.map_map]
  have h : ∀ c ∈ hexEncode bs, (Char.ofNat ∘ Char.toNat) c = id c := by
    intro c hc
    obtain ⟨n, rfl⟩ := mem_hexEncode _ _ hc
    simp [Char_ofNat_toNat_hexDigitChar n]
  rw [List.map_congr_left h, List.map_id]

/-! ## Xor facts used for the counter-mode round trip -/

theorem zipWith_xor_cancel :
    ∀ (m ks : List Nat), m.length ≤ ks.length →
      List.zipWith Nat.xor (List.zipWith Nat.xor m ks) ks = m := by
  intro m
  induction m with
  | nil => intro ks _; simp
  | cons a m ih =>
    intro ks hks
    cases ks with
    | nil => simp at hks
    | cons k ks =>
      simp only [List.zipWith_cons_cons, List.length_cons, List.cons.injEq] at hks ⊢
      exact ⟨Nat.xor_cancel_right k a, ih ks (by omega)⟩

theorem xor_lt_256 {x y : Nat} (hx : x < 256) (hy : y < 256) : x ^^^ y < 256 := by
  have h : Nat.bitwise bne x y < 2 ^ 8 := Nat.bitwise_lt (by omega) (by omega)
  simpa [HXor.hXor, Xor.xor, Nat.xor] using h

/-! ## AES-128-GCM

crypto.subtle with { name: "AES-GCM", length: 128 } and a 12-byte IV, the
primitive behind encryptAES128 / decryptAES128 in src/util/functions.js.
The AES block cipher follows FIPS-197 (S-box computed from the GF(2^8)
inverse and the affine map); GCM follows NIST SP 800-38D with no additional
authenticated data and the default 128-bit tag.  Byte values are kept in
range with explicit reductions mod 256. -/

/-- Multiplication by x in GF(2^8) modulo x^8 + x^4 + x^3 + x + 1 (0x11B),
reduced to a byte. -/
def xtime (b : Nat) : Nat := (2 * b ^^^ (if 128 ≤ b then 0x11B else 0)) % 256

/-- GF(2^8) product, 8 shift-and-add steps. -/
def gmulAux : Nat → Nat → Nat → Nat → Nat
  | 0, _, _, acc => acc
  | k + 1, a, b, acc => gmulAux k (xtime a) (b / 2) (if b % 2 = 1 then acc ^^^ a else acc)

def gmul (a b : Nat) : Nat := gmulAux 8 a b 0

def gpow (a : Nat) : Nat → Nat
  | 0 => 1
  | n + 1 => gmul a (gpow a n)

/-- Inverse in GF(2^8): a^254 (0 maps to 0). -/
def ginv (a : Nat) : Nat := gpow a 254

/-- Rotate a byte left by k bits. -/
def rotl8 (b k : Nat) : Nat := ((b * 2 ^ k) % 256) ||| (b % 256 / 2 ^ (8 - k))

/-- The AES S-box: affine transform of the field inverse. -/
def sboxOf (x : Nat) : Nat :=
  let b := if x % 256 = 0 then 0 else ginv (x % 256)
  b ^^^ rotl8 b 1 ^^^ rotl8 b 2 ^^^ rotl8 b 3 ^^^ rotl8 b 4 ^^^ 0x63

def rcon : List Nat := [0x01, 0x02, 0x04, 0x08, 0x10, 0x20, 0x40, 0x80, 0x1B, 0x36]

def rotWordBytes (w : List Nat) : List Nat := w.drop 1 ++ w.take 1

def subWordBytes (w : List Nat) : List Nat := w.map sboxOf

/-- One step of the AES-128 key schedule: the next 4-byte word from the
words produced so far (ws starts with the 4 words of the key). -/
def nextWord (ws : List (List Nat)) : List Nat :=
  let i := ws.length
  let prev := ws.getD (i - 1) []
  let four := ws.getD (i - 4) []
  let t :=
    if i % 4 = 0 then
      List.zipWith Nat.xor (subWordBytes (rotWordBytes prev))
        [rcon.getD (i / 4 - 1) 0, 0, 0, 0]
    else prev
  List.zipWith Nat.xor four t

def expandAux : Nat → List (List Nat) → List (List Nat)
  | 0, ws => ws
  | k + 1, ws => expandAux k (ws ++ [nextWord ws])

/-- The 44 four-byte words of the AES-128 key schedule. -/
def expandKey (key : List Nat) : List (List Nat) :=
  expandAux 40 ((List.range 4).map (fun i => (List.range 4).map (fun j => key.getD (4 * i + j) 0)))

/-- Bytes of round key r, laid out in the AES state order s(row, col) =
bytes(row + 4*col). -/
def roundKeyBytes (key : List Nat) (r : Nat) : List Nat :=
  (List.range 16).map (fun i => ((expandKey key).getD (4 * r + i / 4) []).getD (i % 4) 0)

def subBytes (s : List Nat) : List Nat := s.map sboxOf

def shiftRows (s : List Nat) : List Nat :=
  (List.range 16).map (fun i => s.getD ((i % 4) + 4 * (((i / 4) + (i % 4)) % 4)) 0)

def mixColumnByte (a : Nat → Nat) : Nat → Nat
  | 0 => xtime (a 0) ^^^ (xtime (a 1) ^^^ a 1) ^^^ a 2 ^^^ a 3
  | 1 => a 0 ^^^ xtime (a 1) ^^^ (xtime (a 2) ^^^ a 2) ^^^ a 3
  | 2 => a 0 ^^^ a 1 ^^^ xtime (a 2) ^^^ (xtime (a 3) ^^^ a 3)
  | _ => (xtime (a 0) ^^^ a 0) ^^^ a 1 ^^^ a 2 ^^^ xtime (a 3)

def mixColumns (s : List Nat) : List Nat :=
  (List.range 16).map (fun i => mixColumnByte (fun j => s.getD ((j % 4) + 4 * (i / 4)) 0) (i % 4))

def addRoundKey (s rk : List Nat) : List Nat := List.zipWith Nat.xor s rk

def aesRound (rk s : List Nat) : List Nat := addRoundKey (mixColumns (shiftRows (subBytes s))) rk

def aesFinalRound (rk s : List Nat) : List Nat := addRoundKey (shiftRows (subBytes s)) rk

/-- AES-128 block encryption of a 16-byte block, output reduced to bytes. -/
def aesBlock (key blk : List Nat) : List Nat :=
  let s0 := addRoundKey blk (roundKeyBytes key 0)
  let s9 := (List.range 9).foldl (fun s r => aesRound (roundKeyBytes key (r + 1)) s) s0
  (aesFinalRound (roundKeyBytes key 10) s9).map (· % 256)

/-- Big-endian byte rendering of a value on n bytes. -/
def natToBytesBE (n v : Nat) : List Nat :=
  (List.range n).map (fun i => v / 2 ^ (8 * (n - 1 - i)) % 256)

def bytesToNatBE (bs : List Nat) : Nat := bs.foldl (fun acc b => 256 * acc + b) 0

/-- GCM keystream for a 96-bit IV: E_K(iv ∥ counter) for counter = 2, 3, …,
truncated to n bytes. -/
def keyStream (key iv : List Nat) (n : Nat) : List Nat :=
  (((List.range (n / 16 + 1)).map
      (fun i => aesBlock key (iv ++ natToBytesBE 4 ((2 + i) % 2 ^ 32)))).flatten).take n

/-- Product in GF(2^128) with GCM's reduction polynomial and bit order
(NIST SP 800-38D algorithm 1), blocks as big-endian 128-bit naturals. -/
def gmul128 (x y : Nat) : Nat :=
  ((List.range 128).foldl
    (fun p i =>
      (if Nat.testBit x (127 - i) then p.1 ^^^ p.2 else p.1,
       if p.2 % 2 = 1 then p.2 / 2 ^^^ 0xE1 * 2 ^ 120 else p.2 / 2))
    ((0 : Nat), y)).1

def ghash (h : Nat) (blocks : List Nat) : Nat :=
  blocks.foldl (fun y x => gmul128 h (y ^^^ x)) 0

/-- Split bytes into zero-padded 16-byte blocks read as 128-bit naturals. -/
def padBlocks : List Nat → List Nat
  | [] => []
  | b :: bs =>
    bytesToNatBE ((b :: bs).take 16 ++ List.replicate (16 - ((b :: bs).take 16).length) 0)
      :: padBlocks ((b :: bs).drop 16)
termination_by bs => bs.length
decreasing_by simp; omega

/-- The GCM authentication tag over ciphertext ct (no AAD, 128-bit tag). -/
def gcmTag (key iv ct : List Nat) : List Nat :=
  let h := bytesToNatBE (aesBlock key (List.replicate 16 0))
  let s := ghash h (padBlocks ct ++ [(ct.length * 8) % 2 ^ 64])
  List.zipWith Nat.xor (aesBlock key (iv ++ [0, 0, 0, 1])) (natToBytesBE 16 s)

/-- AES-GCM encryption: ciphertext ∥ tag, as crypto.subtle.encrypt returns. -/
def aesGcmEncrypt (key iv m : List Nat) : List Nat :=
  let c := List.zipWith Nat.xor m (keyStream key iv m.length)
  c ++ gcmTag key iv c

/-- AES-GCM decryption: checks the tag, then strips the keystream;
none models the OperationError crypto.subtle.decrypt throws. -/
def aesGcmDecrypt (key iv d : List Nat) : Option (List Nat) :=
  if d.length < 16 then none
  else
    let c := d.take (d.length - 16)
    let t := d.drop (d.length - 16)
    if gcmTag key iv c = t then some (List.zipWith Nat.xor c (keyStream key iv c.length))
    else none

/-! ### Length and byte-range facts about the GCM pipeline -/

theorem aesBlock_length (key blk : List Nat) : (aesBlock key blk).length = 16 := by
  simp [aesBlock, aesFinalRound, addRoundKey, shiftRows, subBytes, roundKeyBytes]

theorem aesBlock_lt (key blk : List Nat) : ∀ b ∈ aesBlock key blk, b < 256 := by
  intro b hb
  simp only [aesBlock, List.mem_map] at hb
  obtain ⟨x, _, rfl⟩ := hb
  exact Nat.mod_lt _ (by omega)

theorem flatten_length_of_forall (l : List (List Nat)) (h : ∀ x ∈ l, x.length = 16) :
    l.flatten.length = 16 * l.length := by
  induction l with
  | nil => simp
  | cons x xs ih =>
    simp only [List.flatten_cons, List.length_append, List.length_cons]
    rw [h x (by simp), ih (fun y hy => h y (by simp [hy]))]
    ring

theorem keyStream_length (key iv : List Nat) (n : Nat) : (keyStream key iv n).length = n := by
  unfold keyStream
  rw [List.length_take, flatten_length_of_forall]
  · simp only [List.length_map, List.length_range]
    omega
  · intro x hx
    simp only [List.mem_map] at hx
    obtain ⟨i, _, rfl⟩ := hx
    exact aesBlock_length _ _

theorem keyStream_lt (key iv : List Nat) (n : Nat) : ∀ b ∈ keyStream key iv n, b < 256 := by
  intro b hb
  unfold keyStream at hb
  have hb' := List.mem_of_mem_take hb
  rw [List.mem_flatten] at hb'
  obtain ⟨blk, hblk, hbmem⟩ := hb'
  simp only [List.mem_map] at hblk
  obtain ⟨i, _, rfl⟩ := hblk
  exact aesBlock_lt _ _ b hbmem

theorem zipWith_xor_lt (l1 l2 : List Nat) (h1 : ∀ x ∈ l1, x < 256) (h2 : ∀ x ∈ l2, x < 256) :
    ∀ b ∈ List.zipWith Nat.xor l1 l2, b < 256 := by
  induction l1 generalizing l2 with
  | nil => simp
  | cons a l1 ih =>
    cases l2 with
    | nil => simp
    | cons c l2 =>
      intro b hb
      simp only [List.zipWith_cons_cons, List.mem_cons] at hb
      rcases hb with rfl | hb
      · exact xor_lt_256 (h1 a (by simp)) (h2 c (by simp))
      · exact ih l2 (fun x hx => h1 x (by simp [hx])) (fun x hx => h2 x (by simp [hx])) b hb

theorem natToBytesBE_lt (n v : Nat) : ∀ b ∈ natToBytesBE n v, b < 256 := by
  intro b hb
  simp only [natToBytesBE, List.mem_map] at hb
  obtain ⟨i, _, rfl⟩ := hb
  exact Nat.mod_lt _ (by omega)

theorem gcmTag_length (key iv ct : List Nat) : (gcmTag key iv ct).length = 16 := by
  simp [gcmTag, natToBytesBE, aesBlock_length]

theorem gcmTag_lt (key iv ct : List Nat) : ∀ b ∈ gcmTag key iv ct, b < 256 := by
  unfold gcmTag
  exact zipWith_xor_lt _ _ (aesBlock_lt _ _) (natToBytesBE_lt _ _)

theorem aesGcmEncrypt_length (key iv m : List Nat) :
    (aesGcmEncrypt key iv m).length = m.length + 16 := by
  simp [aesGcmEncrypt, gcmTag_length, keyStream_length]

theorem aesGcmEncrypt_lt (key iv m : List Nat) (hm : ∀ b ∈ m, b < 256) :
    ∀ b ∈ aesGcmEncrypt key iv m, b < 256 := by
  intro b hb
  simp only [aesGcmEncrypt, List.mem_append] at hb
  rcases hb with hb | hb
  · exact zipWith_xor_lt _ _ hm (keyStream_lt _ _ _) b hb
  · exact gcmTag_lt _ _ _ b hb

/-- Decryption inverts encryption: the tag recomputed over the ciphertext is
the one appended at encryption time, and xoring the keystream twice is the
identity. -/
theorem aesGcmDecrypt_aesGcmEncrypt (key iv m : List Nat) :
    aesGcmDecrypt key iv (aesGcmEncrypt key iv m) = some m := by
  have hks : (keyStream key iv m.length).length = m.length := keyStream_length key iv m.length
  have hc : (List.zipWith Nat.xor m (keyStream key iv m.length)).length = m.length := by
    simp [hks]
  unfold aesGcmDecrypt aesGcmEncrypt
  have hlen : (List.zipWith Nat.xor m (keyStream key iv m.length) ++
      gcmTag key iv (List.zipWith Nat.xor m (keyStream key iv m.length))).length
      = m.length + 16 := by
    simp [hc, gcmTag_length]
  rw [hlen]
  simp only [show ¬ (m.length + 16 < 16) by omega, if_false]
  have htake : (List.zipWith Nat.xor m (keyStream key iv m.length) ++
      gcmTag key iv (List.zipWith Nat.xor m (keyStream key iv m.length))).take (m.length + 16 - 16)
      = List.zipWith Nat.xor m (keyStream key iv m.length) := by
    have : m.length + 16 - 16 = (List.zipWith Nat.xor m (keyStream key iv m.length)).length := by
      omega
    rw [this, List.take_left]
  have hdrop : (List.zipWith Nat.xor m (keyStream key iv m.length) ++
      gcmTag key iv (List.zipWith Nat.xor m (keyStream key iv m.length))).drop (m.length + 16 - 16)
      = gcmTag key iv (List.zipWith Nat.xor m (keyStream key iv m.length)) := by
    have : m.length + 16 - 16 = (List.zipWith Nat.xor m (keyStream key iv m.length)).length := by
      omega
    rw [this, List.drop_left]
  rw [htake, hdrop, if_pos rfl, hc]
  exact congrArg some (zipWith_xor_cancel m _ (le_of_eq hks.symm))

/-! ## src/util/functions.js : AES helpers

generateAES128Key's 16 random bytes and encryptAES128's random 12-byte IV
are threaded as parameters. -/

/-- generateAES128Key: export the fresh 128-bit key as a hex string. -/
def generateAES128Key (keyBytes : List Nat) : String := String.mk (hexEncode keyBytes)

/-- encryptAES128(file, keyHex): AES-GCM-encrypt file under the key decoded
from keyHex with a random 12-byte IV, returning hex(iv ∥ ciphertext ∥ tag). -/
def encryptAES128 (file : List Nat) (keyHex : String) (iv : List Nat) : String :=
  String.mk (hexEncode (iv ++ aesGcmEncrypt (hexDecode keyHex.data) iv file))

/-- decryptAES128(encryptedHex, keyHex): split off the 12-byte IV and
AES-GCM-decrypt the rest. -/
def decryptAES128 (encryptedHex : String) (keyHex : String) : Option (List Nat) :=
  let encryptedBuffer := hexDecode encryptedHex.data
  aesGcmDecrypt (hexDecode keyHex.data) (encryptedBuffer.take 12) (encryptedBuffer.drop 12)

theorem decryptAES128_encryptAES128 (file : List Nat) (keyHex : String) (iv : List Nat)
    (hfile : ∀ b ∈ file, b < 256) (hiv : iv.length = 12) (hivb : ∀ b ∈ iv, b < 256) :
    decryptAES128 (encryptAES128 file keyHex iv) keyHex = some file := by
  unfold decryptAES128 encryptAES128
  have hdec : hexDecode (String.mk (hexEncode (iv ++ aesGcmEncrypt (hexDecode keyHex.data) iv file))).data
      = iv ++ aesGcmEncrypt (hexDecode keyHex.data) iv file := by
    apply hexDecode_hexEncode
    intro b hb
    rcases List.mem_append.mp hb with hb | hb
    · exact hivb b hb
    · exact aesGcmEncrypt_lt _ _ _ hfile b hb
  rw [hdec]
  have htake : (iv ++ aesGcmEncrypt (hexDecode keyHex.data) iv file).take 12 = iv := by
    rw [← hiv, List.take_left]
  have hdrop : (iv ++ aesGcmEncrypt (hexDecode keyHex.data) iv file).drop 12
      = aesGcmEncrypt (hexDecode keyHex.data) iv file := by
    rw [← hiv, List.drop_left]
  simp only [htake, hdrop]
  exact aesGcmDecrypt_aesGcmEncrypt _ _ _

/-! ## Server state: the storage table (SQLite) and the content store

One record per stored object, with the columns of the storage table; the
content store is the directory of files named by UUID, as an association
list of (uuid, bytes). -/

structure StorageRecord where
  ID : String
  hash : Option String
  compressedHash : Option String
  size : Nat
  compressed : Nat
  expires : Option Int
  accessed : Option Int
  timestamp : Int
  key : Option String
deriving DecidableEq

structure ServerState where
  db : List StorageRecord
  files : List (String × List Nat)
deriving DecidableEq

/-- SELECT … FROM storage WHERE ID = ? (ID is the primary key). -/
def dbGet (db : List StorageRecord) (uuid : String) : Option StorageRecord :=
  db.find? (fun r => r.ID == uuid)

/-- DELETE FROM storage WHERE ID = ?. -/
def dbDelete (db : List StorageRecord) (uuid : String) : List StorageRecord :=
  db.filter (fun r => r.ID != uuid)

/-- UPDATE storage SET accessed = ? WHERE ID = ?. -/
def dbSetAccessed (db : List StorageRecord) (uuid : String) (now : Int) : List StorageRecord :=
  db.map (fun r => if r.ID == uuid then { r with accessed := some now } else r)

/-- SUM(size) over the storage table. -/
def totalDbSize (db : List StorageRecord) : Nat := (db.map (fun r => r.size)).sum

/-- Bun.file(path).exists(). -/
def fsExists (files : List (String × List Nat)) (uuid : String) : Bool :=
  files.any (fun p => p.1 == uuid)

/-- Reading the file's bytes (Bun.file(path).stream(), drained). -/
def fsRead (files : List (String × List Nat)) (uuid : String) : Option (List Nat) :=
  (files.find? (fun p => p.1 == uuid)).map (fun p => p.2)

/-- unlink(path) on a file known to exist. -/
def fsRemove (files : List (String × List Nat)) (uuid : String) : List (String × List Nat) :=
  files.filter (fun p => p.1 != uuid)

/-- Bun.write(path, bytes): create or overwrite. -/
def fsWrite (files : List (String × List Nat)) (uuid : String) (content : List Nat) :
    List (String × List Nat) :=
  (uuid, content) :: files.filter (fun p => p.1 != uuid)

/-- Total bytes in the content store. -/
def totalStoredBytes (files : List (String × List Nat)) : Nat :=
  (files.map (fun p => p.2.length)).sum

/-! ## UUID handling in web.js (uuid.replace(/[^0-9a-fA-F-]/g, "") and
validator's isUUID(uuid, 4)) -/

def isHexChar (c : Char) : Bool :=
  ('0' ≤ c && c ≤ '9') || ('a' ≤ c && c ≤ 'f') || ('A' ≤ c && c ≤ 'F')

def sanitizeUUID (s : String) : String :=
  String.mk (s.data.filter (fun c => isHexChar c || c == '-'))

/-- validator.isUUID(s, 4): 8-4-4-4-12 hex groups, version nibble 4, variant
nibble in [89abAB]. -/
def isUUIDv4 (s : String) : Bool :=
  s.data.length == 36 &&
  (List.range 36).all (fun i =>
    let c := s.data.getD i ' '
    if i == 8 || i == 13 || i == 18 || i == 23 then c == '-'
    else if i == 14 then c == '4'
    else if i == 19 then c == '8' || c == '9' || c == 'a' || c == 'b' || c == 'A' || c == 'B'
    else isHexChar c)

/-! ## Shared truthiness helpers (JS: 0, null/undefined and "" are falsy) -/

/-- fileData.expires ? parseInt(fileData.expires, 10) : null — a stored
expiry of 0 reads back as null. -/
def truthyExpires : Option Int → Option Int
  | some v => if v == 0 then none else some v
  | none => none

/-- The lazy-expiry test (expires && maxAge <= 0): the parsed expiry is
present and the remaining lifetime is not positive. -/
def expiredGate (expires : Option Int) (maxAge : Int) : Bool :=
  match expires with
  | some _ => maxAge ≤ 0
  | none => false

/-- fileData.key && (!key || fileData.key != key): the unauthorized gate of
the GET and info handlers. -/
def keyGateFails (storedKey : Option String) (supplied : Option String) : Bool :=
  match storedKey with
  | none => false
  | some k =>
    if k == "" then false
    else
      match supplied with
      | none => true
      | some s => s == "" || s != k

/-- Modelled from the spec: the contentEncoding map of util/utilities.js is
not under src/; the spec fixes the compressionAlgorithm enum as
{none, deflate, gzip}, with 1 = deflate and 2 = gzip as in
COMPRESSION_ALGORITHM.  An out-of-range or absent (undefined) index yields
no header. -/
def contentEncoding : Option Nat → Option String
  | some 1 => some "deflate"
  | some 2 => some "gzip"
  | _ => none

/-! ## src/util/web.js : handleFile (GET and DELETE on /file/<uuid>) -/

inductive FileOut where
  | emptyUUID
  | invalidUUID
  | notFound
  | unauthorized
  | ok (body : List Nat) (maxAgeMs : Int) (contentEncodingHeader : Option String)
  | streamError
  | deleted (uuid : String)
  | errorDeleting
  | methodNotAllowed
deriving DecidableEq

/-- handleFile(req, url): the uuid is the path after /file/, the key the
?key= query parameter.  GET: look the row up, gate on the stored key before
any filesystem access, self-heal a stale row, enforce lazy expiry, update
accessed, stream the bytes with a Cache-Control lifetime and a
Content-Encoding header when compressed.  DELETE: delete the row, then
unlink the file — unlink throws on a missing file and the catch block
reports an error (after the row was already deleted). -/
def handleFile (st : ServerState) (method : String) (rawUuid : String) (key : Option String)
    (now : Int) : FileOut × ServerState :=
  let uuid := sanitizeUUID rawUuid
  if uuid == "" then (.emptyUUID, st)
  else if !(isUUIDv4 uuid) then (.invalidUUID, st)
  else if method == "GET" then
    match dbGet st.db uuid with
    | none => (.notFound, st)
    | some fileData =>
      if keyGateFails fileData.key key then (.unauthorized, st)
      else if !(fsExists st.files uuid) then
        (.notFound, { st with db := dbDelete st.db uuid })
      else
        let expires := truthyExpires fileData.expires
        let maxAge : Int :=
          match expires with
          | some e => if now < e then e - now else -1
          | none => 2592000000
        if expiredGate expires maxAge then
          (.notFound, { db := dbDelete st.db uuid, files := fsRemove st.files uuid })
        else
          let db' := dbSetAccessed st.db uuid now
          match fsRead st.files uuid with
          | some body =>
            (.ok body maxAge
              (if 1 ≤ fileData.compressed then contentEncoding (some fileData.compressed) else none),
             { st with db := db' })
          | none => (.streamError, { st with db := db' })
  else if method == "DELETE" then
    match dbGet st.db uuid with
    | none => (.notFound, st)
    | some _ =>
      let db' := dbDelete st.db uuid
      if fsExists st.files uuid then (.deleted uuid, { db := db', files := fsRemove st.files uuid })
      else (.errorDeleting, { st with db := db' })
  else (.methodNotAllowed, st)

/-! ## src/util/web.js : handleInfo (GET /info and GET /info/<uuid>) -/

/-- The columns of the single-object query:
SELECT hash, size, expires, key, accessed, timestamp FROM storage WHERE ID = ?.
The compressed and compressedHash columns are not selected. -/
structure InfoRow where
  hash : Option String
  size : Nat
  expires : Option Int
  key : Option String
  accessed : Option Int
  timestamp : Int
deriving DecidableEq

def infoSelect (r : StorageRecord) : InfoRow :=
  { hash := r.hash, size := r.size, expires := r.expires, key := r.key,
    accessed := r.accessed, timestamp := r.timestamp }

inductive InfoOut where
  | serverInfo (count : Nat) (totalSize : Nat)
  | invalidUUID
  | notFound
  | unauthorized
  | internalError
  | ok (status : Nat) (uuid : String) (hash : Option String) (compressedHash : Option String)
      (compression : Option String) (size : Nat) (expires : Option Int)
      (accessed : Option Int) (timestamp : Int)
deriving DecidableEq

/-- handleInfo(req, url): with no uuid, aggregate server info (count and
SUM(size); the name/version/start/maxUploadSize fields are environment
constants and are omitted here).  With a uuid: look up the projected row,
gate on the key, lazily expire, and answer with the object's metadata.
In the success response file.compressed and file.compressedHash are
undefined — they are not in the SELECT list — so the compression field is
contentEncoding of undefined and the compressedHash field is undefined;
the response status is the literal 400 of the source. -/
def handleInfo (st : ServerState) (uuidPart : Option String) (key : Option String)
    (now : Int) : InfoOut × ServerState :=
  let uuid? :=
    match uuidPart with
    | some u => let s := sanitizeUUID u; if s == "" then none else some s
    | none => none
  match uuid? with
  | none => (.serverInfo st.db.length (totalDbSize st.db), st)
  | some uuid =>
    if !(isUUIDv4 uuid) then (.invalidUUID, st)
    else
      match dbGet st.db uuid with
      | none => (.notFound, st)
      | some row =>
        let file := infoSelect row
        if keyGateFails file.key key then (.unauthorized, st)
        else
          let expires := truthyExpires file.expires
          let maxAge : Int :=
            match expires with
            | some e => if now < e then e - now else -1
            | none => 2592000000
          if expiredGate expires maxAge then
            if fsExists st.files uuid then
              (.notFound, { db := dbDelete st.db uuid, files := fsRemove st.files uuid })
            else (.internalError, { st with db := dbDelete st.db uuid })
          else
            (.ok 400 uuid file.hash none (contentEncoding none) file.size file.expires
              file.accessed file.timestamp, st)

/-! ## src/util/web.js : handleUpload (POST /upload)

External collaborators are parameters: the zlib transform (compressFn, by
algorithm number), the SHA-256 content hash (hashFn, Bun.CryptoHasher), and
the outbound fetch for link uploads (fetchFn).  Base64 transport decoding of
the file field and the URL-shape validation of the link field are the
validator library's concern and are elided: req.file carries the decoded
bytes.  The fresh UUID, the generated AES key bytes and the random IV are
parameters. -/

structure UploadCfg where
  compressionAlgorithm : Nat
  compressFn : Nat → List Nat → Option (List Nat)
  hashFn : List Nat → String
  maxStorageBytes : Option Nat

structure UploadReq where
  file : Option (List Nat)
  link : Option String
  expires : Option Int
  encrypt : Bool

inductive UpOut where
  | noFileOrLink
  | invalidExpiry
  | fetchFailed
  | internalError
  | tooLarge
  | emptyFile
  | dedupHit (uuid : String) (hash : String) (compressedHash : Option String)
  | stored (uuid : String) (hash : String) (key : Option String)
deriving DecidableEq

/-- COMPRESSION_ALGORITHM decoding (line 228 of web.js): values 1 and 2 name
deflate and gzip, anything else disables compression. -/
def compressionFromEnv : Option Int → Nat
  | some n => if 1 ≤ n ∧ n ≤ 2 then n.toNat else 0
  | none => 0

/-- The expiry validation (expires && expires <= Date.now()): a supplied 0
is falsy and skips both checks. -/
def expiresRejected (expires : Option Int) (now : Int) : Bool :=
  match expires with
  | some v => v != 0 && v ≤ now
  | none => false

/-- One comparison step of the maximum-timestamp scan over matching rows. -/
def dedupStep (h : String) (acc : Option StorageRecord) (r : StorageRecord) :
    Option StorageRecord :=
  if r.hash == some h then
    match acc with
    | none => some r
    | some a => if a.timestamp < r.timestamp then some r else some a
  else acc

/-- The dedup query:
SELECT ID, compressedHash FROM storage WHERE hash = ? ORDER BY timestamp DESC LIMIT 1. -/
def mostRecentByHash (db : List StorageRecord) (h : String) : Option StorageRecord :=
  db.foldl (dedupStep h) none

/-- The transform pipeline of handleUpload (lines 227-258): optional
compression by the configured algorithm (the switch default is an internal
error), then optional AES-128-GCM encryption, whose hex output is written
as its ASCII bytes. -/
def uploadTransform (cfg : UploadCfg) (encrypt : Bool) (keyHex : String) (iv : List Nat)
    (plain : List Nat) : Option (List Nat) :=
  let compressed? :=
    if 1 ≤ cfg.compressionAlgorithm then
      match cfg.compressionAlgorithm with
      | 1 => cfg.compressFn 1 plain
      | 2 => cfg.compressFn 2 plain
      | _ => none
    else some plain
  match compressed? with
  | none => none
  | some f => if encrypt then some (strBytes (encryptAES128 f keyHex iv)) else some f

/-- handleUpload(req, url): validate, fetch a link-sourced payload (a link
overrides an inline file), hash the plaintext, short-circuit on a dedup hit,
compress/encrypt, enforce MAX_STORAGE_SIZE on the final bytes of this upload
(0 is falsy and disables the ceiling), reject an empty final payload, then
write the file and insert the row. -/
def handleUpload (cfg : UploadCfg) (fetchFn : String → Option (List Nat)) (st : ServerState)
    (req : UploadReq) (uuid : String) (keyBytes iv : List Nat) (now : Int) :
    UpOut × ServerState :=
  if req.file == none && req.link == none then (.noFileOrLink, st)
  else if expiresRejected req.expires now then (.invalidExpiry, st)
  else
    match (match req.link with | some l => fetchFn l | none => req.file) with
    | none => (.fetchFailed, st)
    | some plain =>
      let hash := cfg.hashFn plain
      match mostRecentByHash st.db hash with
      | some r => (.dedupHit r.ID hash r.compressedHash, st)
      | none =>
        let keyHex := generateAES128Key keyBytes
        let key : Option String := if req.encrypt then some keyHex else none
        match uploadTransform cfg req.encrypt keyHex iv plain with
        | none => (.internalError, st)
        | some finalBytes =>
          if (match cfg.maxStorageBytes with
              | some m => !(m == 0) && finalBytes.length > m
              | none => false) then (.tooLarge, st)
          else if finalBytes.length == 0 then (.emptyFile, st)
          else
            let compressedHash :=
              if 1 ≤ cfg.compressionAlgorithm then some (cfg.hashFn finalBytes) else none
            let rec' : StorageRecord :=
              { ID := uuid, hash := some hash, compressedHash := compressedHash,
                size := finalBytes.length, compressed := cfg.compressionAlgorithm,
                expires := req.expires, accessed := none, timestamp := now, key := key }
            (.stored uuid hash key,
             { db := st.db ++ [rec'], files := fsWrite st.files uuid finalBytes })

/-! ## src/app.js : rate limiter (requestCounts map, rateLimit) -/

structure RLEntry where
  count : Nat
  expiry : Int
deriving DecidableEq

def RATE_LIMIT_WINDOW_MS : Int := 60 * 1000

def rlGet (st : List (String × RLEntry)) (ip : String) : Option RLEntry :=
  (st.find? (fun p => p.1 == ip)).map (fun p => p.2)

/-- requestCounts.set(ip, v): replace or add. -/
def rlSet (st : List (String × RLEntry)) (ip : String) (v : RLEntry) :
    List (String × RLEntry) :=
  if st.any (fun p => p.1 == ip) then st.map (fun p => if p.1 == ip then (ip, v) else p)
  else st ++ [(ip, v)]

/-- entry.count += 1 (in-place update of the entry held in the map). -/
def rlIncr (st : List (String × RLEntry)) (ip : String) : List (String × RLEntry) :=
  st.map (fun p => if p.1 == ip then (ip, { p.2 with count := p.2.count + 1 }) else p)

/-- rateLimit(request): RATE_LIMIT unset disables the limiter entirely
(the env string "0" is truthy, so some 0 is an active limit of 0).
A fresh or expired window restarts at count 1 and allows; under the limit
the counter is incremented and the request allowed; otherwise rejected. -/
def rateLimit (maxReq : Option Nat) (st : List (String × RLEntry)) (ip : String) (now : Int) :
    Bool × List (String × RLEntry) :=
  match maxReq with
  | none => (true, st)
  | some m =>
    match rlGet st ip with
    | none => (true, rlSet st ip { count := 1, expiry := now + RATE_LIMIT_WINDOW_MS })
    | some entry =>
      if entry.expiry < now then
        (true, rlSet st ip { count := 1, expiry := now + RATE_LIMIT_WINDOW_MS })
      else if entry.count < m then (true, rlIncr st ip)
      else (false, st)

/-- A fixed number of back-to-back requests from one client, all at the same
timestamp, starting from an empty counter map. -/
def rlRun (maxReq : Option Nat) (ip : String) (now : Int) :
    Nat → Bool × List (String × RLEntry)
  | 0 => (true, [])
  | k + 1 =>
    let p := rlRun maxReq ip now k
    let q := rateLimit maxReq p.2 ip now
    (p.1 && q.1, q.2)

/-! ## src/app.js : checkToken and the fetch dispatcher's token gate -/

/-- checkToken(token): with no TOKEN configured everything passes; otherwise
the Authorization header must be exactly "Bearer " + TOKEN (a missing or
empty header fails). -/
def checkToken (cfgToken : Option String) (auth : Option String) : Bool :=
  match cfgToken with
  | none => true
  | some t =>
    match auth with
    | none => false
    | some a => !(a == "") && a == "Bearer " ++ t

/-- url.pathname.startsWith(route). -/
def pathStartsWith (pre : String) (p : List Char) : Bool := pre.data.isPrefixOf p

/-- The routes table: GET /ping, /file/, /info; POST /upload;
DELETE /file/ — matched by pathname prefix. -/
def routeMatch (method : String) (path : List Char) : Bool :=
  (method == "GET" &&
    (pathStartsWith "/ping" path || pathStartsWith "/file/" path ||
      pathStartsWith "/info" path)) ||
  (method == "POST" && pathStartsWith "/upload" path) ||
  (method == "DELETE" && pathStartsWith "/file/" path)

/-- The exemption condition of app.js line 262: the token is not checked for
GET /file/ requests nor for /ping or /info paths. -/
def tokenExempt (method : String) (path : List Char) : Bool :=
  (method == "GET" && pathStartsWith "/file/" path) ||
  pathStartsWith "/ping" path || pathStartsWith "/info" path

/-- Whether a routed request reaches checkToken at all. -/
def tokenChecked (method : String) (path : List Char) : Bool :=
  routeMatch method path && !(tokenExempt method path)

inductive RouteOut where
  | noRoute
  | headerMismatch
  | tokenUnauthorized
  | handled (method : String) (path : List Char)
deriving DecidableEq

/-- The per-request logic of the fetch dispatcher's route-matched branch
(app.js lines 251-268): the serverHeaders check (skipped for GET /file/,
summarized by headersOk), then the token gate, then the route handler —
which receives the request without its Authorization header ever being
read again. -/
def routeFetch (cfgToken : Option String) (method : String) (path : List Char)
    (auth : Option String) (headersOk : Bool) : RouteOut :=
  if !(routeMatch method path) then .noRoute
  else if !(method == "GET" && pathStartsWith "/file/" path) && !headersOk then
    .headerMismatch
  else if !(tokenExempt method path) && !(checkToken cfgToken auth) then
    .tokenUnauthorized
  else .handled method path

/-! ## Helper lemmas about the model -/

theorem isUUIDv4_beq_empty_false (s : String) (h : isUUIDv4 s = true) : (s == "") = false := by
  cases hb : (s == "") with
  | false => rfl
  | true =>
    exfalso
    have hs : s = "" := by simpa using hb
    subst hs
    simp [isUUIDv4] at h

theorem sanitizeUUID_of_isUUIDv4 (s : String) (h : isUUIDv4 s = true) : sanitizeUUID s = s := by
  obtain ⟨data⟩ := s
  unfold isUUIDv4 at h
  rw [Bool.and_eq_true] at h
  obtain ⟨hlen, hall⟩ := h
  have hlen' : data.length = 36 := by simpa using hlen
  unfold sanitizeUUID
  have hf : data.filter (fun c => isHexChar c || c == '-') = data := by
    apply List.filter_eq_self.mpr
    intro c hc
    obtain ⟨i, hi, hci⟩ := List.mem_iff_getElem.mp hc
    have hi36 : i < 36 := hlen' ▸ hi
    have hcond := List.all_eq_true.mp hall i (List.mem_range.mpr hi36)
    simp only at hcond
    rw [List.getD_eq_getElem _ _ hi, hci] at hcond
    split_ifs at hcond
    · simp [hcond]
    · have : c = '4' := by simpa using hcond
      subst this
      decide
    · simp only [Bool.or_eq_true, beq_iff_eq] at hcond
      rcases hcond with ((((rfl | rfl) | rfl) | rfl) | rfl) | rfl <;> decide
    · simp [hcond]
  simp [hf]

theorem dbGet_append_fresh (db : List StorageRecord) (r : StorageRecord) (uuid : String)
    (hfresh : ∀ x ∈ db, x.ID ≠ uuid) (hr : r.ID = uuid) :
    dbGet (db ++ [r]) uuid = some r := by
  induction db with
  | nil => simp [dbGet, List.find?, hr]
  | cons x xs ih =>
    have hx : (x.ID == uuid) = false := by
      simpa using hfresh x (by simp)
    simp only [dbGet, List.cons_append, List.find?, hx]
    exact ih (fun y hy => hfresh y (by simp [hy]))

theorem fsRead_fsWrite_self (files : List (String × List Nat)) (uuid : String) (c : List Nat) :
    fsRead (fsWrite files uuid c) uuid = some c := by
  simp [fsRead, fsWrite, List.find?]

theorem fsExists_fsWrite_self (files : List (String × List Nat)) (uuid : String) (c : List Nat) :
    fsExists (fsWrite files uuid c) uuid = true := by
  simp [fsExists, fsWrite]

theorem fsRead_of_fsExists (files : List (String × List Nat)) (uuid : String)
    (h : fsExists files uuid = true) : ∃ c, fsRead files uuid = some c := by
  unfold fsExists at h
  rw [List.any_eq_true] at h
  obtain ⟨p, hp, hpe⟩ := h
  unfold fsRead
  have : (files.find? (fun q => q.1 == uuid)).isSome := by
    rw [List.find?_isSome]
    exact ⟨p, hp, hpe⟩
  obtain ⟨q, hq⟩ := Option.isSome_iff_exists.mp this
  exact ⟨q.2, by rw [hq]; rfl⟩

theorem hexEncode_ne_nil (bs : List Nat) (h : bs ≠ []) : hexEncode bs ≠ [] := by
  cases bs with
  | nil => exact absurd rfl h
  | cons b bs => simp [hexEncode]

/-! ## Claim C5 : the key gate of read-mode retrieval fires before any
filesystem access -/

/-- Claim C5: for every read of an identifier whose record carries a
(non-empty) encryption key, a missing or different supplied key yields the
unauthorized outcome and leaves the state — database and content store —
unchanged; the result holds for every content-store value, so no filesystem
access is involved. -/
theorem get_wrong_key_unauthorized_before_fs
    (db : List StorageRecord) (files : List (String × List Nat)) (uuid : String)
    (r : StorageRecord) (sk : String) (key : Option String) (now : Int)
    (hu : isUUIDv4 uuid = true)
    (hget : dbGet db uuid = some r)
    (hk : r.key = some sk) (hsk : sk ≠ "")
    (hbad : key = none ∨ ∃ s, key = some s ∧ s ≠ sk) :
    handleFile ⟨db, files⟩ "GET" uuid key now = (.unauthorized, ⟨db, files⟩) := by
  have hgate : keyGateFails r.key key = true := by
    rw [hk]
    rcases hbad with rfl | ⟨s, rfl, hs⟩
    · simp [keyGateFails, hsk]
    · simp [keyGateFails, hsk, hs]
  simp [handleFile, sanitizeUUID_of_isUUIDv4 uuid hu, isUUIDv4_beq_empty_false uuid hu,
    hu, hget, hgate]

def recKeyed : StorageRecord :=
  { ID := "123e4567-e89b-42d3-a456-426614174000", hash := none, compressedHash := none,
    size := 1, compressed := 0, expires := none, accessed := none, timestamp := 0,
    key := some "aa" }

theorem get_wrong_key_unauthorized_before_fs_witness :
    isUUIDv4 "123e4567-e89b-42d3-a456-426614174000" = true ∧
    recKeyed.key = some "aa" ∧
    handleFile ⟨[recKeyed], [("123e4567-e89b-42d3-a456-426614174000", [7])]⟩ "GET"
        "123e4567-e89b-42d3-a456-426614174000" (some "bb") 0
      = (.unauthorized, ⟨[recKeyed], [("123e4567-e89b-42d3-a456-426614174000", [7])]⟩) := by
  refine ⟨by decide, by decide, ?_⟩
  exact get_wrong_key_unauthorized_before_fs [recKeyed] _ _ recKeyed "aa" (some "bb") 0
    (by decide) (by decide) (by decide) (by decide) (Or.inr ⟨"bb", rfl, by decide⟩)

/-! ## Claim C2 : delete mode with an absent backing file -/

def u0 : String := "123e4567-e89b-42d3-a456-426614174000"

def rec0 : StorageRecord :=
  { ID := u0, hash := none, compressedHash := none, size := 1, compressed := 0,
    expires := none, accessed := none, timestamp := 0, key := none }

/-- Counterexample to claim C2 as stated: with the index row present but the
backing file absent, delete removes the row but reports the internal
deletion error (HTTP 500), not success. -/
theorem delete_missing_file_cex :
    (handleFile ⟨[rec0], []⟩ "DELETE" u0 none 0).1 = FileOut.errorDeleting ∧
    (handleFile ⟨[rec0], []⟩ "DELETE" u0 none 0).2.db = [] ∧
    ¬ (handleFile ⟨[rec0], []⟩ "DELETE" u0 none 0).1 = FileOut.deleted u0 := by
  refine ⟨by decide, by decide, ?_⟩
  intro h
  have h1 : (handleFile ⟨[rec0], []⟩ "DELETE" u0 none 0).1 = FileOut.errorDeleting := by decide
  rw [h1] at h
  exact FileOut.noConfusion h

/-- Claim C2, amended: for every identifier whose index row exists, delete
mode removes the index row; it reports success when the backing file exists
(and also unlinks it), but when the backing file is already absent the
unlink throws and the handler reports an internal error — the row removal
still having happened.  File absence is thus an error in the response, not
in the index effect. -/
theorem delete_removes_row_result_by_file_presence
    (db : List StorageRecord) (files : List (String × List Nat)) (uuid : String)
    (r : StorageRecord) (key : Option String) (now : Int)
    (hu : isUUIDv4 uuid = true)
    (hget : dbGet db uuid = some r) :
    (fsExists files uuid = false →
      handleFile ⟨db, files⟩ "DELETE" uuid key now = (.errorDeleting, ⟨dbDelete db uuid, files⟩)) ∧
    (fsExists files uuid = true →
      handleFile ⟨db, files⟩ "DELETE" uuid key now
        = (.deleted uuid, ⟨dbDelete db uuid, fsRemove files uuid⟩)) := by
  refine ⟨fun hfs => ?_, fun hfs => ?_⟩ <;>
    simp [handleFile, sanitizeUUID_of_isUUIDv4 uuid hu, isUUIDv4_beq_empty_false uuid hu,
      hu, hget, hfs]

theorem delete_removes_row_result_by_file_presence_witness :
    isUUIDv4 u0 = true ∧ dbGet [rec0] u0 = some rec0 ∧
    handleFile ⟨[rec0], []⟩ "DELETE" u0 none 0 = (.errorDeleting, ⟨[], []⟩) := by
  refine ⟨by decide, by decide, ?_⟩
  have h := (delete_removes_row_result_by_file_presence [rec0] [] u0 rec0 none 0
    (by decide) (by decide)).1 (by decide)
  rw [h]
  have hdel : dbDelete [rec0] u0 = [] := by decide
  rw [hdel]

/-! ## Claim C4 : lazy expiry on read, and the cache lifetime -/

def recExpireZero : StorageRecord := { rec0 with expires := some 0 }

/-- Counterexample to claim C4 as stated: a record whose expires column is 0
is "expiresAt set and in the past", yet a read at time 1000 serves the file
with the 30-day default cache lifetime instead of deleting it and answering
not-found — 0 is falsy, so the code treats it as no expiry. -/
theorem expired_zero_served_cex :
    (handleFile ⟨[recExpireZero], [(u0, [7])]⟩ "GET" u0 none 1000).1
      = FileOut.ok [7] 2592000000 none ∧
    (handleFile ⟨[recExpireZero], [(u0, [7])]⟩ "GET" u0 none 1000).2.db
      = [{ recExpireZero with accessed := some 1000 }] := by
  exact ⟨by decide, by decide⟩

/-- Claim C4, amended: on a read of an existing record with the backing file
present and the key gate passed, a nonzero expiry that is not in the future
deletes both the file and the index row and answers not-found; a nonzero
future expiry serves the file with cache lifetime expiresAt - now; an unset
expiry — and likewise the value 0, which is falsy — serves the file with the
fixed 30-day default lifetime (2592000000 ms). -/
theorem lazy_expiry_on_read
    (db : List StorageRecord) (files : List (String × List Nat)) (uuid : String)
    (r : StorageRecord) (key : Option String) (now : Int)
    (hu : isUUIDv4 uuid = true)
    (hget : dbGet db uuid = some r)
    (hkey : keyGateFails r.key key = false)
    (hfs : fsExists files uuid = true) :
    (∀ e, r.expires = some e → e ≠ 0 → e ≤ now →
      handleFile ⟨db, files⟩ "GET" uuid key now
        = (.notFound, ⟨dbDelete db uuid, fsRemove files uuid⟩)) ∧
    (∀ e, r.expires = some e → e ≠ 0 → now < e →
      ∃ body, fsRead files uuid = some body ∧
        handleFile ⟨db, files⟩ "GET" uuid key now
          = (.ok body (e - now)
              (if 1 ≤ r.compressed then contentEncoding (some r.compressed) else none),
             ⟨dbSetAccessed db uuid now, files⟩)) ∧
    ((r.expires = none ∨ r.expires = some 0) →
      ∃ body, fsRead files uuid = some body ∧
        handleFile ⟨db, files⟩ "GET" uuid key now
          = (.ok body 2592000000
              (if 1 ≤ r.compressed then contentEncoding (some r.compressed) else none),
             ⟨dbSetAccessed db uuid now, files⟩)) := by
  obtain ⟨body, hbody⟩ := fsRead_of_fsExists files uuid hfs
  refine ⟨fun e he he0 hle => ?_, fun e he he0 hlt => ?_, fun he => ?_⟩
  · have hexp : truthyExpires r.expires = some e := by
      simp [truthyExpires, he, he0]
    have hnotlt : ¬ (now < e) := by omega
    simp [handleFile, sanitizeUUID_of_isUUIDv4 uuid hu, isUUIDv4_beq_empty_false uuid hu,
      hu, hget, hkey, hfs, hexp, hnotlt, expiredGate]
  · have hexp : truthyExpires r.expires = some e := by
      simp [truthyExpires, he, he0]
    refine ⟨body, hbody, ?_⟩
    have hgt : ¬ (e - now ≤ 0) := by omega
    simp [handleFile, sanitizeUUID_of_isUUIDv4 uuid hu, isUUIDv4_beq_empty_false uuid hu,
      hu, hget, hkey, hfs, hexp, hlt, expiredGate, hgt, hbody]
  · have hexp : truthyExpires r.expires = none := by
      rcases he with he | he <;> simp [truthyExpires, he]
    refine ⟨body, hbody, ?_⟩
    simp [handleFile, sanitizeUUID_of_isUUIDv4 uuid hu, isUUIDv4_beq_empty_false uuid hu,
      hu, hget, hkey, hfs, hexp, expiredGate, hbody]

def recExpireFive : StorageRecord := { rec0 with expires := some 5 }

theorem lazy_expiry_on_read_witness :
    isUUIDv4 u0 = true ∧ fsExists [(u0, [7])] u0 = true ∧
    handleFile ⟨[recExpireFive], [(u0, [7])]⟩ "GET" u0 none 1000
      = (.notFound, ⟨dbDelete [recExpireFive] u0, fsRemove [(u0, [7])] u0⟩) := by
  refine ⟨by decide, by decide, ?_⟩
  exact (lazy_expiry_on_read [recExpireFive] [(u0, [7])] u0 recExpireFive none 1000
    (by decide) (by decide) (by decide) (by decide)).1 5 rfl (by decide) (by decide)

/-! ## Claim C6 : fixed-window rate limiting -/

theorem rlGet_unique (st : List (String × RLEntry)) (ip : String)
    (hnd : (st.map Prod.fst).Nodup) (x : String × RLEntry) (hx : x ∈ st) (hxip : x.1 = ip) :
    rlGet st ip = some x.2 := by
  induction st with
  | nil => simp at hx
  | cons p rest ih =>
    rcases List.mem_cons.mp hx with rfl | hx'
    · simp [rlGet, List.find?, hxip]
    · have hnd' := hnd
      rw [List.map_cons, List.nodup_cons] at hnd'
      have hne : (p.1 == ip) = false := by
        rw [beq_eq_false_iff_ne]
        intro hq
        exact hnd'.1 (hq ▸ hxip ▸ List.mem_map_of_mem Prod.fst hx')
      simp only [rlGet, List.find?, hne]
      exact ih hnd'.2 hx'

/-- The stored counter never exceeds the configured maximum (for a maximum
of at least 1): every branch of rateLimit either installs count 1 or
increments a counter only when it is strictly under the maximum. -/
theorem rateLimit_count_le (N : Nat) (st : List (String × RLEntry)) (ip : String) (now : Int)
    (hN : 1 ≤ N) (hnd : (st.map Prod.fst).Nodup) (hall : ∀ e ∈ st, e.2.count ≤ N) :
    ∀ e ∈ (rateLimit (some N) st ip now).2, e.2.count ≤ N := by
  intro e he
  cases hget : rlGet st ip with
  | none =>
    simp only [rateLimit, hget, rlSet] at he
    by_cases hany : st.any (fun p => p.1 == ip) = true
    · rw [if_pos hany] at he
      obtain ⟨x, hx, hxe⟩ := List.mem_map.mp he
      by_cases hxip : (x.1 == ip) = true
      · rw [if_pos hxip] at hxe
        subst hxe
        exact hN
      · rw [if_neg hxip] at hxe
        subst hxe
        exact hall x hx
    · rw [if_neg hany] at he
      rcases List.mem_append.mp he with hx | hx
      · exact hall e hx
      · obtain rfl : e = (ip, { count := 1, expiry := now + RATE_LIMIT_WINDOW_MS }) := by
          simpa using hx
        exact hN
  | some entry =>
    simp only [rateLimit, hget] at he
    by_cases hexp : entry.expiry < now
    · rw [if_pos hexp] at he
      simp only [rlSet] at he
      by_cases hany : st.any (fun p => p.1 == ip) = true
      · rw [if_pos hany] at he
        obtain ⟨x, hx, hxe⟩ := List.mem_map.mp he
        by_cases hxip : (x.1 == ip) = true
        · rw [if_pos hxip] at hxe
          subst hxe
          exact hN
        · rw [if_neg hxip] at hxe
          subst hxe
          exact hall x hx
      · rw [if_neg hany] at he
        rcases List.mem_append.mp he with hx | hx
        · exact hall e hx
        · obtain rfl : e = (ip, { count := 1, expiry := now + RATE_LIMIT_WINDOW_MS }) := by
            simpa using hx
          exact hN
    · rw [if_neg hexp] at he
      by_cases hcnt : entry.count < N
      · rw [if_pos hcnt] at he
        simp only [rlIncr] at he
        obtain ⟨x, hx, hxe⟩ := List.mem_map.mp he
        by_cases hxip : (x.1 == ip) = true
        · rw [if_pos hxip] at hxe
          have hxu : rlGet st ip = some x.2 :=
            rlGet_unique st ip hnd x hx (by simpa using hxip)
          rw [hget] at hxu
          have hxentry : x.2 = entry := by
            injection hxu with hxu'
            exact hxu'.symm
          subst hxe
          simp only [hxentry]
          omega
        · rw [if_neg hxip] at hxe
          subst hxe
          exact hall x hx
      · rw [if_neg hcnt] at he
        exact hall e he

/-- Requests 1..k ≤ N back to back from a fresh client leave exactly one
counter, at value k, all of them allowed. -/
theorem rlRun_under_limit (N : Nat) (ip : String) (now : Int) :
    ∀ k, 1 ≤ k → k ≤ N →
      rlRun (some N) ip now k
        = (true, [(ip, { count := k, expiry := now + RATE_LIMIT_WINDOW_MS })]) := by
  intro k
  induction k with
  | zero => omega
  | succ k ih =>
    intro _ hkN
    rcases Nat.eq_zero_or_pos k with rfl | hk1
    · simp [rlRun, rateLimit, rlGet, rlSet]
    · have hklt : k < N := by omega
      have hne : ¬ (now + RATE_LIMIT_WINDOW_MS < now) := by
        unfold RATE_LIMIT_WINDOW_MS
        omega
      simp only [rlRun]
      rw [ih hk1 (by omega)]
      simp [rateLimit, rlGet, List.find?, rlIncr, hne, hklt]

/-- Counterexample to claim C6 as stated: with a configured maximum of
N = 0 (the env string "0" is truthy, so the limiter is active), request
N + 1 = 1 from a fresh client is allowed, and the stored count becomes
1 > N. -/
theorem rate_limit_zero_cex :
    (rateLimit (some 0) [] "203.0.113.5" 0).1 = true ∧
    (rateLimit (some 0) [] "203.0.113.5" 0).2
      = [("203.0.113.5", { count := 1, expiry := 60000 })] := by
  exact ⟨by decide, by decide⟩

/-- Claim C6, amended: for every configured maximum N ≥ 1 and client,
within one window requests 1..N are allowed with the counter created at 1
and incremented up to N; request N + 1 within the window is rejected with
the state unchanged; a request after the window's expiry resets the counter
to 1 and is allowed; and on counter maps with distinct keys (as the JS Map
guarantees) the stored count never exceeds N.  (For N = 0 the first request
of each window is still allowed and the stored count reaches 1.) -/
theorem rate_limit_window_behavior (N : Nat) (ip : String) (now : Int) (hN : 1 ≤ N) :
    (∀ k, 1 ≤ k → k ≤ N →
      rlRun (some N) ip now k
        = (true, [(ip, { count := k, expiry := now + RATE_LIMIT_WINDOW_MS })])) ∧
    (rateLimit (some N) [(ip, { count := N, expiry := now + RATE_LIMIT_WINDOW_MS })] ip now
      = (false, [(ip, { count := N, expiry := now + RATE_LIMIT_WINDOW_MS })])) ∧
    (∀ now', now + RATE_LIMIT_WINDOW_MS < now' →
      rateLimit (some N) [(ip, { count := N, expiry := now + RATE_LIMIT_WINDOW_MS })] ip now'
        = (true, [(ip, { count := 1, expiry := now' + RATE_LIMIT_WINDOW_MS })])) ∧
    (∀ (st : List (String × RLEntry)) (ip' : String) (now'' : Int),
      (st.map Prod.fst).Nodup → (∀ e ∈ st, e.2.count ≤ N) →
      ∀ e ∈ (rateLimit (some N) st ip' now'').2, e.2.count ≤ N) := by
  refine ⟨rlRun_under_limit N ip now, ?_, fun now' hlt => ?_, ?_⟩
  · have hne : ¬ (now + RATE_LIMIT_WINDOW_MS < now) := by
      unfold RATE_LIMIT_WINDOW_MS
      omega
    simp [rateLimit, rlGet, List.find?, hne]
  · simp [rateLimit, rlGet, List.find?, hlt, rlSet]
  · intro st ip' now'' hnd hall
    exact rateLimit_count_le N st ip' now'' hN hnd hall

theorem rate_limit_window_behavior_witness :
    1 ≤ 2 ∧
    rlRun (some 2) "203.0.113.5" 0 2
      = (true, [("203.0.113.5", { count := 2, expiry := 0 + RATE_LIMIT_WINDOW_MS })]) ∧
    rateLimit (some 2) [("203.0.113.5", { count := 2, expiry := 0 + RATE_LIMIT_WINDOW_MS })]
        "203.0.113.5" 0
      = (false, [("203.0.113.5", { count := 2, expiry := 0 + RATE_LIMIT_WINDOW_MS })]) := by
  have h := rate_limit_window_behavior 2 "203.0.113.5" 0 (by decide)
  exact ⟨by decide, h.1 2 (by decide) (by decide), h.2.1⟩

/-! ## Claim C7 : upload expiry validation misses the value 0 -/

def cfgPlain : UploadCfg :=
  { compressionAlgorithm := 0, compressFn := fun _ _ => none,
    hashFn := fun _ => "h", maxStorageBytes := none }

/-- Claim C7 is right and the code is wrong: the guard
(expires && expires <= Date.now()) rejects every truthy non-future expiry,
but a supplied expiry of 0 is falsy, skips both checks, and the object is
stored with expires = 0 — no validation error, file written, row inserted. -/
theorem upload_accepts_zero_expiry :
    expiresRejected (some 1) 5 = true ∧
    expiresRejected (some 0) 5 = false ∧
    handleUpload cfgPlain (fun _ => none) ⟨[], []⟩
        { file := some [1], link := none, expires := some 0, encrypt := false } u0 [] [] 5
      = (.stored u0 "h" none,
         ⟨[{ ID := u0, hash := some "h", compressedHash := none, size := 1, compressed := 0,
             expires := some 0, accessed := none, timestamp := 5, key := none }],
          [(u0, [1])]⟩) := by
  exact ⟨by decide, by decide, by decide⟩

/-! ## Claim C8 : the storage ceiling is per-file, not over the total -/

def cfgCeiling : UploadCfg :=
  { compressionAlgorithm := 0, compressFn := fun _ _ => none,
    hashFn := fun bs => String.mk (hexEncode bs), maxStorageBytes := some 10 }

def uuidB : String := "00000000-0000-4000-8000-000000000000"

/-- Claim C8 is right about the intent (MAX_STORAGE_SIZE is documented as
the total the server may store) and the code is wrong: the check at
web.js:260 compares only the current upload's final size against the
ceiling, so two 6-byte uploads are both accepted under a 10-byte ceiling
and the total stored bytes reach 12 > 10. -/
theorem storage_ceiling_total_exceeded :
    (handleUpload cfgCeiling (fun _ => none) ⟨[], []⟩
        { file := some (List.replicate 6 1), link := none, expires := none, encrypt := false }
        u0 [] [] 0).1
      = UpOut.stored u0 (cfgCeiling.hashFn (List.replicate 6 1)) none ∧
    (handleUpload cfgCeiling (fun _ => none)
        (handleUpload cfgCeiling (fun _ => none) ⟨[], []⟩
          { file := some (List.replicate 6 1), link := none, expires := none, encrypt := false }
          u0 [] [] 0).2
        { file := some (List.replicate 6 2), link := none, expires := none, encrypt := false }
        uuidB [] [] 1).1
      = UpOut.stored uuidB (cfgCeiling.hashFn (List.replicate 6 2)) none ∧
    totalStoredBytes
        (handleUpload cfgCeiling (fun _ => none)
          (handleUpload cfgCeiling (fun _ => none) ⟨[], []⟩
            { file := some (List.replicate 6 1), link := none, expires := none, encrypt := false }
            u0 [] [] 0).2
          { file := some (List.replicate 6 2), link := none, expires := none, encrypt := false }
          uuidB [] [] 1).2.files
      = 12 ∧
    cfgCeiling.maxStorageBytes = some 10 := by
  exact ⟨by decide, by decide, by decide, rfl⟩

/-! ## Claim C9 : single-object inspect -/

/-- Claim C9 is right about the intent and the code is wrong on two points:
for every stored, non-expired record (key gate passed), the single-object
info response carries the identifier, contentHash, size, and the expires,
accessed and created timestamps, but
1. its compression field is contentEncoding of an undefined index — the
   compressed column is not in the SELECT list — so the JSON omits the
   compression algorithm entirely (and compressedHash is likewise absent);
2. the response status is 400, not a success status. -/
theorem info_single_status400_missing_compression
    (db : List StorageRecord) (files : List (String × List Nat)) (uuid : String)
    (r : StorageRecord) (key : Option String) (now : Int)
    (hu : isUUIDv4 uuid = true)
    (hget : dbGet db uuid = some r)
    (hkey : keyGateFails r.key key = false)
    (hexp : truthyExpires r.expires = none ∨ ∃ e, truthyExpires r.expires = some e ∧ now < e) :
    handleInfo ⟨db, files⟩ (some uuid) key now
      = (.ok 400 uuid r.hash none (contentEncoding none) r.size r.expires r.accessed
          r.timestamp, ⟨db, files⟩) := by
  rcases hexp with hexp | ⟨e, hexp, hlt⟩
  · simp [handleInfo, sanitizeUUID_of_isUUIDv4 uuid hu, isUUIDv4_beq_empty_false uuid hu,
      hu, hget, hkey, infoSelect, hexp, expiredGate]
  · have hgt : ¬ (e - now ≤ 0) := by omega
    simp [handleInfo, sanitizeUUID_of_isUUIDv4 uuid hu, isUUIDv4_beq_empty_false uuid hu,
      hu, hget, hkey, infoSelect, hexp, hlt, expiredGate, hgt]

def recCompressed : StorageRecord :=
  { ID := u0, hash := some "hh", compressedHash := some "cc", size := 3, compressed := 2,
    expires := none, accessed := none, timestamp := 0, key := none }

theorem info_single_status400_missing_compression_witness :
    isUUIDv4 u0 = true ∧ recCompressed.compressed = 2 ∧
    handleInfo ⟨[recCompressed], []⟩ (some u0) none 0
      = (.ok 400 u0 (some "hh") none (contentEncoding none) 3 none none 0,
         ⟨[recCompressed], []⟩) := by
  refine ⟨by decide, rfl, ?_⟩
  exact info_single_status400_missing_compression [recCompressed] [] u0 recCompressed none 0
    (by decide) (by decide) (by decide) (Or.inl rfl)

/-! ## Claim C10 : the token gate never applies to read-mode retrieval -/

theorem isPrefixOf_false_of_second_ne (c d : Char) (cs ds p : List Char) (hne : d ≠ c)
    (h : ('/' :: c :: cs).isPrefixOf p = true) :
    (('/' :: d :: ds).isPrefixOf p) = false := by
  cases p with
  | nil => simp [List.isPrefixOf] at h
  | cons a p =>
    cases p with
    | nil => simp [List.isPrefixOf] at h
    | cons b p =>
      simp only [List.isPrefixOf, Bool.and_eq_true, beq_iff_eq] at h
      obtain ⟨ha, hb, -⟩ := h
      subst ha
      subst hb
      simp [List.isPrefixOf, beq_eq_false_iff_ne.mpr hne]

theorem ping_false_of_upload (p : List Char) (h : pathStartsWith "/upload" p = true) :
    pathStartsWith "/ping" p = false :=
  isPrefixOf_false_of_second_ne 'u' 'p' ['p', 'l', 'o', 'a', 'd'] ['i', 'n', 'g'] p
    (by decide) h

theorem info_false_of_upload (p : List Char) (h : pathStartsWith "/upload" p = true) :
    pathStartsWith "/info" p = false :=
  isPrefixOf_false_of_second_ne 'u' 'i' ['p', 'l', 'o', 'a', 'd'] ['n', 'f', 'o'] p
    (by decide) h

theorem ping_false_of_file (p : List Char) (h : pathStartsWith "/file/" p = true) :
    pathStartsWith "/ping" p = false :=
  isPrefixOf_false_of_second_ne 'f' 'p' ['i', 'l', 'e', '/'] ['i', 'n', 'g'] p
    (by decide) h

theorem info_false_of_file (p : List Char) (h : pathStartsWith "/file/" p = true) :
    pathStartsWith "/info" p = false :=
  isPrefixOf_false_of_second_ne 'f' 'i' ['i', 'l', 'e', '/'] ['n', 'f', 'o'] p
    (by decide) h

/-- The token gate fires exactly on POST /upload and DELETE /file/ routes:
GET routes (/ping, /file/, /info) are all within the exemption condition. -/
theorem tokenChecked_iff (m : String) (p : List Char) :
    tokenChecked m p = true ↔
      ((m = "POST" ∧ pathStartsWith "/upload" p = true) ∨
       (m = "DELETE" ∧ pathStartsWith "/file/" p = true)) := by
  unfold tokenChecked routeMatch tokenExempt
  by_cases hg : m = "GET"
  · subst hg
    cases h1 : pathStartsWith "/ping" p <;>
      cases h2 : pathStartsWith "/file/" p <;>
        cases h3 : pathStartsWith "/info" p <;>
          simp [h1, h2, h3]
  · by_cases hpo : m = "POST"
    · subst hpo
      cases hup : pathStartsWith "/upload" p
      · simp [hup]
      · simp [hup, ping_false_of_upload p hup, info_false_of_upload p hup]
    · by_cases hd : m = "DELETE"
      · subst hd
        cases hf : pathStartsWith "/file/" p
        · simp [hf]
        · simp [hf, ping_false_of_file p hf, info_false_of_file p hf]
      · have h1 : (m == "GET") = false := beq_eq_false_iff_ne.mpr hg
        have h2 : (m == "POST") = false := beq_eq_false_iff_ne.mpr hpo
        have h3 : (m == "DELETE") = false := beq_eq_false_iff_ne.mpr hd
        simp [h1, h2, h3, hpo, hd]

/-- Claim C10: read-mode retrieval is never gated on the server access
token.  Two GET /file/ requests differing only in their Authorization header
take the same branch of the dispatcher (and the route handler never reads
the header), a GET /file/ request never produces the token-unauthorized
rejection, and the token check applies exactly to the POST /upload and
DELETE /file/ routes — GET's /ping, /file/ and /info are all exempt. -/
theorem get_file_ignores_authorization
    (cfgToken : Option String) (path : List Char) (auth₁ auth₂ : Option String)
    (headersOk : Bool)
    (hp : pathStartsWith "/file/" path = true) :
    routeFetch cfgToken "GET" path auth₁ headersOk
      = routeFetch cfgToken "GET" path auth₂ headersOk ∧
    (∀ auth, routeFetch cfgToken "GET" path auth headersOk ≠ .tokenUnauthorized) ∧
    (∀ m p, tokenChecked m p = true ↔
      ((m = "POST" ∧ pathStartsWith "/upload" p = true) ∨
       (m = "DELETE" ∧ pathStartsWith "/file/" p = true))) := by
  have hall : ∀ auth, routeFetch cfgToken "GET" path auth headersOk = .handled "GET" path := by
    intro auth
    simp [routeFetch, routeMatch, tokenExempt, hp]
  refine ⟨(hall auth₁).trans (hall auth₂).symm, fun auth h => ?_, tokenChecked_iff⟩
  rw [hall auth] at h
  exact RouteOut.noConfusion h

theorem get_file_ignores_authorization_witness :
    pathStartsWith "/file/" "/file/abc".data = true ∧
    routeFetch (some "t") "GET" "/file/abc".data none true
      = routeFetch (some "t") "GET" "/file/abc".data (some "Bearer wrong") true ∧
    tokenChecked "POST" "/upload".data = true := by
  refine ⟨by decide, ?_, ?_⟩
  · exact (get_file_ignores_authorization (some "t") "/file/abc".data none
      (some "Bearer wrong") true (by decide)).1
  · exact ((get_file_ignores_authorization (some "t") "/file/abc".data none
      (some "Bearer wrong") true (by decide)).2.2 "POST" "/upload".data).mpr
      (Or.inl ⟨rfl, by decide⟩)

/-! ## Claim C3 : deduplication short-circuit -/

theorem foldl_dedupStep_spec (h : String) :
    ∀ (db : List StorageRecord) (acc : Option StorageRecord),
      (∀ a, acc = some a → a.hash = some h) →
      (match db.foldl (dedupStep h) acc with
       | none => acc = none ∧ ∀ r ∈ db, r.hash ≠ some h
       | some m =>
           m.hash = some h ∧ (acc = some m ∨ m ∈ db) ∧
           (∀ a, acc = some a → a.timestamp ≤ m.timestamp) ∧
           (∀ r ∈ db, r.hash = some h → r.timestamp ≤ m.timestamp)) := by
  intro db
  induction db with
  | nil =>
    intro acc hacc
    cases acc with
    | none => simp
    | some a =>
      refine ⟨hacc a rfl, Or.inl rfl, ?_, by simp⟩
      intro a' ha'
      injection ha' with e
      subst e
      exact le_refl _
  | cons r rest ih =>
    intro acc hacc
    simp only [List.foldl_cons]
    by_cases hr : (r.hash == some h) = true
    · have hrh : r.hash = some h := by simpa using hr
      obtain ⟨b, hb, hbh, hbc, hble, hrle⟩ :
          ∃ b, dedupStep h acc r = some b ∧ b.hash = some h ∧ (b = r ∨ acc = some b) ∧
            (∀ a, acc = some a → a.timestamp ≤ b.timestamp) ∧ r.timestamp ≤ b.timestamp := by
        cases acc with
        | none => exact ⟨r, by simp [dedupStep, hr], hrh, Or.inl rfl, by simp, le_refl _⟩
        | some a =>
          by_cases hlt : a.timestamp < r.timestamp
          · refine ⟨r, by simp [dedupStep, hr, hlt], hrh, Or.inl rfl, ?_, le_refl _⟩
            intro a' ha'
            injection ha' with e
            subst e
            omega
          · refine ⟨a, by simp [dedupStep, hr, hlt], hacc a rfl, Or.inr rfl, ?_, by omega⟩
            intro a' ha'
            injection ha' with e
            subst e
            exact le_refl _
      rw [hb]
      have hspec := ih (some b) (by intro a ha; injection ha with e; subst e; exact hbh)
      cases hres : rest.foldl (dedupStep h) (some b) with
      | none =>
        rw [hres] at hspec
        exact absurd hspec.1 (by simp)
      | some m =>
        rw [hres] at hspec
        obtain ⟨hmh, hmem, hlea, hler⟩ := hspec
        refine ⟨hmh, ?_, ?_, ?_⟩
        · rcases hmem with hm | hm
          · injection hm with e
            rcases hbc with hbr | hab
            · exact Or.inr (by rw [← e, hbr]; exact List.mem_cons_self r rest)
            · exact Or.inl (by rw [hab, e])
          · exact Or.inr (List.mem_cons_of_mem r hm)
        · intro a ha
          exact le_trans (hble a ha) (hlea b rfl)
        · intro x hx hxh
          rcases List.mem_cons.mp hx with rfl | hx'
          · exact le_trans hrle (hlea b rfl)
          · exact hler x hx' hxh
    · have hstep : dedupStep h acc r = acc := by simp [dedupStep, hr]
      rw [hstep]
      have hspec := ih acc hacc
      cases hres : rest.foldl (dedupStep h) acc with
      | none =>
        rw [hres] at hspec
        refine ⟨hspec.1, ?_⟩
        intro x hx
        rcases List.mem_cons.mp hx with rfl | hx'
        · simpa using hr
        · exact hspec.2 x hx'
      | some m =>
        rw [hres] at hspec
        obtain ⟨hmh, hmem, hlea, hler⟩ := hspec
        refine ⟨hmh, ?_, hlea, ?_⟩
        · rcases hmem with hm | hm
          · exact Or.inl hm
          · exact Or.inr (List.mem_cons_of_mem r hm)
        · intro x hx hxh
          rcases List.mem_cons.mp hx with rfl | hx'
          · exact absurd hxh (by simpa using hr)
          · exact hler x hx' hxh

theorem mostRecentByHash_spec (db : List StorageRecord) (h : String)
    (hex : ∃ r ∈ db, r.hash = some h) :
    ∃ m, mostRecentByHash db h = some m ∧ m ∈ db ∧ m.hash = some h ∧
      ∀ r ∈ db, r.hash = some h → r.timestamp ≤ m.timestamp := by
  have hs := foldl_dedupStep_spec h db none (by intro a ha; cases ha)
  cases hres : db.foldl (dedupStep h) none with
  | none =>
    rw [hres] at hs
    obtain ⟨r, hr, hrh⟩ := hex
    exact absurd hrh (hs.2 r hr)
  | some m =>
    rw [hres] at hs
    obtain ⟨hmh, hmem, -, hmax⟩ := hs
    refine ⟨m, hres, ?_, hmh, hmax⟩
    rcases hmem with hm | hm
    · cases hm
    · exact hm

theorem mostRecentByHash_eq_none (db : List StorageRecord) (h : String)
    (hnone : ∀ r ∈ db, r.hash ≠ some h) :
    mostRecentByHash db h = none := by
  have hs := foldl_dedupStep_spec h db none (by intro a ha; cases ha)
  cases hres : db.foldl (dedupStep h) none with
  | none => exact hres
  | some m =>
    rw [hres] at hs
    have hmem : m ∈ db := by
      rcases hs.2.1 with hm | hm
      · cases hm
      · exact hm
    exact absurd hs.1 (hnone m hmem)

/-- Claim C3: an upload whose plaintext hash matches an existing record's
hash is answered with the identifier of a matching record of maximal
timestamp (the most recently created one), as a success, with the state —
database and content store — returned unchanged: no file written, no row
inserted, object count unchanged. -/
theorem upload_dedup_returns_most_recent
    (cfg : UploadCfg) (fetchFn : String → Option (List Nat))
    (db : List StorageRecord) (files : List (String × List Nat))
    (plain : List Nat) (expires : Option Int) (encrypt : Bool)
    (uuid : String) (keyBytes iv : List Nat) (now : Int)
    (hexp : expiresRejected expires now = false)
    (hhit : ∃ r ∈ db, r.hash = some (cfg.hashFn plain)) :
    ∃ m, mostRecentByHash db (cfg.hashFn plain) = some m ∧
      handleUpload cfg fetchFn ⟨db, files⟩
          { file := some plain, link := none, expires := expires, encrypt := encrypt }
          uuid keyBytes iv now
        = (.dedupHit m.ID (cfg.hashFn plain) m.compressedHash, ⟨db, files⟩) ∧
      m ∈ db ∧ m.hash = some (cfg.hashFn plain) ∧
      ∀ r ∈ db, r.hash = some (cfg.hashFn plain) → r.timestamp ≤ m.timestamp := by
  obtain ⟨m, hm, hmem, hmh, hmax⟩ := mostRecentByHash_spec db _ hhit
  refine ⟨m, hm, ?_, hmem, hmh, hmax⟩
  have h0 : ((some plain == (none : Option (List Nat))) &&
      ((none : Option String) == (none : Option String))) = false := rfl
  simp [handleUpload, hexp, hm, h0]

def recHashA : StorageRecord := { rec0 with hash := some "h", timestamp := 1 }

def recHashB : StorageRecord :=
  { rec0 with ID := uuidB, hash := some "h", timestamp := 5 }

theorem upload_dedup_returns_most_recent_witness :
    (∃ r ∈ [recHashA, recHashB], r.hash = some (cfgPlain.hashFn [9])) ∧
    handleUpload cfgPlain (fun _ => none) ⟨[recHashA, recHashB], []⟩
        { file := some [9], link := none, expires := none, encrypt := false } u0 [] [] 0
      = (.dedupHit recHashB.ID (cfgPlain.hashFn [9]) recHashB.compressedHash,
         ⟨[recHashA, recHashB], []⟩) := by
  refine ⟨⟨recHashA, by simp, rfl⟩, ?_⟩
  obtain ⟨m, hm, hout, -, -, -⟩ := upload_dedup_returns_most_recent cfgPlain (fun _ => none)
    [recHashA, recHashB] [] [9] none false u0 [] [] 0 (by decide) ⟨recHashA, by simp, rfl⟩
  have hcomp : mostRecentByHash [recHashA, recHashB] (cfgPlain.hashFn [9]) = some recHashB := by
    decide
  rw [hm] at hcomp
  injection hcomp with e
  rw [e] at hout
  exact hout

/-! ## Claim C1 : retrieval with the correct key inverts the ingest
transforms -/

/-- The retrieval-side inverse of the ingest transforms, as §8 of the spec
describes for an encrypted object: read the streamed bytes back as the hex
string the server stored, apply decryptAES128 with the per-object key the
upload response returned, then undo the configured compression.  (The
server itself streams the stored bytes unchanged; for a compressed and
encrypted object its Content-Encoding header must be ignored, since
decryption has to happen before decompression.) -/
def recoverPlaintext (decompressFn : Nat → List Nat → Option (List Nat)) (alg : Nat)
    (keyHex : String) (body : List Nat) : Option (List Nat) :=
  match decryptAES128 (bytesStr body) keyHex with
  | some d => if 1 ≤ alg then decompressFn alg d else some d
  | none => none

theorem keyGateFails_same (k : String) : keyGateFails (some k) (some k) = false := by
  cases hk : (k == "") with
  | true => simp [keyGateFails, hk]
  | false => simp [keyGateFails, hk]

/-- A successful upload path: dedup miss, transform produced the final
bytes, ceiling check passed, final bytes nonempty — the outcome is stored,
the file written under the fresh uuid and the row appended. -/
theorem handleUpload_stored (cfg : UploadCfg) (fetchFn : String → Option (List Nat))
    (db : List StorageRecord) (files : List (String × List Nat))
    (plain : List Nat) (uuid : String) (keyBytes iv : List Nat) (now : Int)
    (final : List Nat)
    (hdedup : mostRecentByHash db (cfg.hashFn plain) = none)
    (htrans : uploadTransform cfg true (generateAES128Key keyBytes) iv plain = some final)
    (hmaxfalse : (match cfg.maxStorageBytes with
      | some m => !(m == 0) && final.length > m
      | none => false) = false)
    (hfinne : (final.length == 0) = false) :
    handleUpload cfg fetchFn ⟨db, files⟩
        { file := some plain, link := none, expires := none, encrypt := true }
        uuid keyBytes iv now
      = (.stored uuid (cfg.hashFn plain) (some (generateAES128Key keyBytes)),
         ⟨db ++ [{ ID := uuid, hash := some (cfg.hashFn plain),
                   compressedHash := if 1 ≤ cfg.compressionAlgorithm then
                     some (cfg.hashFn final) else none,
                   size := final.length, compressed := cfg.compressionAlgorithm,
                   expires := none, accessed := none, timestamp := now,
                   key := some (generateAES128Key keyBytes) }],
          fsWrite files uuid final⟩) := by
  have h0 : ((some plain == (none : Option (List Nat))) &&
      ((none : Option String) == (none : Option String))) = false := rfl
  simp [handleUpload, h0, expiresRejected, hdedup, htrans, hmaxfalse, hfinne]

/-- A successful GET: record found, key gate passed, file present, no
expiry — the body is streamed with the 30-day default cache lifetime and
accessed is updated. -/
theorem handleFile_get_ok (db : List StorageRecord) (files : List (String × List Nat))
    (uuid : String) (r : StorageRecord) (key : Option String) (now : Int) (body : List Nat)
    (hu : isUUIDv4 uuid = true)
    (hget : dbGet db uuid = some r)
    (hkg : keyGateFails r.key key = false)
    (hexp : r.expires = none)
    (hfsx : fsExists files uuid = true)
    (hfsr : fsRead files uuid = some body) :
    handleFile ⟨db, files⟩ "GET" uuid key now
      = (.ok body 2592000000
          (if 1 ≤ r.compressed then contentEncoding (some r.compressed) else none),
         ⟨dbSetAccessed db uuid now, files⟩) := by
  simp [handleFile, sanitizeUUID_of_isUUIDv4 uuid hu, isUUIDv4_beq_empty_false uuid hu,
    hu, hget, hkg, hfsx, hfsr, hexp, truthyExpires, expiredGate]

/-- Claim C1: an object uploaded with encrypt = true (fresh uuid, dedup
miss, within the ceiling) is retrievable by GET with the per-object key the
upload returned, and applying decryptAES128 and then the configured
decompression to the streamed bytes recovers the original plaintext — the
retrieval side inverts the ingest transforms for every payload, given that
the zlib library inverts its own compression. -/
theorem upload_retrieve_decrypt_roundtrip
    (cfg : UploadCfg) (fetchFn : String → Option (List Nat))
    (decompressFn : Nat → List Nat → Option (List Nat))
    (db : List StorageRecord) (files : List (String × List Nat))
    (plain : List Nat) (uuid : String) (keyBytes iv : List Nat) (now now' : Int)
    (hplain : ∀ b ∈ plain, b < 256)
    (hiv12 : iv.length = 12) (hivb : ∀ b ∈ iv, b < 256)
    (hu : isUUIDv4 uuid = true)
    (hfresh : ∀ r ∈ db, r.ID ≠ uuid)
    (hmiss : ∀ r ∈ db, r.hash ≠ some (cfg.hashFn plain))
    (halg : cfg.compressionAlgorithm ≤ 2)
    (hcompOk : 1 ≤ cfg.compressionAlgorithm →
      ∃ y, cfg.compressFn cfg.compressionAlgorithm plain = some y)
    (hcomp : ∀ y, cfg.compressFn cfg.compressionAlgorithm plain = some y →
      (∀ b ∈ y, b < 256) ∧ decompressFn cfg.compressionAlgorithm y = some plain)
    (hmax : ∀ m f, cfg.maxStorageBytes = some m →
      uploadTransform cfg true (generateAES128Key keyBytes) iv plain = some f →
      f.length ≤ m) :
    ∃ st' body,
      handleUpload cfg fetchFn ⟨db, files⟩
          { file := some plain, link := none, expires := none, encrypt := true }
          uuid keyBytes iv now
        = (.stored uuid (cfg.hashFn plain) (some (generateAES128Key keyBytes)), st') ∧
      handleFile st' "GET" uuid (some (generateAES128Key keyBytes)) now'
        = (.ok body 2592000000
            (if 1 ≤ cfg.compressionAlgorithm then
              contentEncoding (some cfg.compressionAlgorithm) else none),
           ⟨dbSetAccessed st'.db uuid now', st'.files⟩) ∧
      recoverPlaintext decompressFn cfg.compressionAlgorithm (generateAES128Key keyBytes) body
        = some plain := by
  obtain ⟨mid, hmid, hmidlt, hmidrec⟩ :
      ∃ mid,
        (if 1 ≤ cfg.compressionAlgorithm then
          match cfg.compressionAlgorithm with
          | 1 => cfg.compressFn 1 plain
          | 2 => cfg.compressFn 2 plain
          | _ => none
         else some plain) = some mid ∧
        (∀ b ∈ mid, b < 256) ∧
        (if 1 ≤ cfg.compressionAlgorithm then
          decompressFn cfg.compressionAlgorithm mid = some plain
         else mid = plain) := by
    rcases Nat.lt_or_ge cfg.compressionAlgorithm 1 with h1 | h1
    · have hno : ¬ (1 ≤ cfg.compressionAlgorithm) := by omega
      exact ⟨plain, by rw [if_neg hno], hplain, by rw [if_neg hno]⟩
    · obtain ⟨y, hy⟩ := hcompOk h1
      have hyy := hcomp y hy
      rcases (by omega : cfg.compressionAlgorithm = 1 ∨ cfg.compressionAlgorithm = 2) with
        he | he
      · rw [he] at hy hyy ⊢
        exact ⟨y, by simp [hy], hyy.1, by simp [hyy.2]⟩
      · rw [he] at hy hyy ⊢
        exact ⟨y, by simp [hy], hyy.1, by simp [hyy.2]⟩
  have htrans : uploadTransform cfg true (generateAES128Key keyBytes) iv plain
      = some (strBytes (encryptAES128 mid (generateAES128Key keyBytes) iv)) := by
    simp [uploadTransform, hmid]
  have hfinlen : (strBytes (encryptAES128 mid (generateAES128Key keyBytes) iv)).length
      = 2 * (12 + (mid.length + 16)) := by
    show ((hexEncode (iv ++ aesGcmEncrypt
        (hexDecode (generateAES128Key keyBytes).data) iv mid)).map Char.toNat).length = _
    rw [List.length_map, hexEncode_length, List.length_append, hiv12, aesGcmEncrypt_length]
  have hfinne : ((strBytes (encryptAES128 mid (generateAES128Key keyBytes) iv)).length == 0)
      = false := by
    rw [beq_eq_false_iff_ne]
    omega
  have hmaxfalse : (match cfg.maxStorageBytes with
      | some m =>
            !(m == 0) &&
                  (strBytes (encryptAES128 mid (generateAES128Key keyBytes) iv)).length > m
      | none => false) = false := by
    cases hms : cfg.maxStorageBytes with
    | none => rfl
    | some m =>
      have hle := hmax m _ hms htrans
      have hdec : (decide ((strBytes (encryptAES128 mid (generateAES128Key keyBytes) iv)).length
          > m)) = false := decide_eq_false (by omega)
      simp [hdec]
  have hdedup : mostRecentByHash db (cfg.hashFn plain) = none :=
    mostRecentByHash_eq_none db _ hmiss
  have hupload := handleUpload_stored cfg fetchFn db files plain uuid keyBytes iv now
    (strBytes (encryptAES128 mid (generateAES128Key keyBytes) iv))
    hdedup htrans hmaxfalse hfinne
  refine ⟨_, strBytes (encryptAES128 mid (generateAES128Key keyBytes) iv), hupload, ?_, ?_⟩
  · have hget2 := dbGet_append_fresh db
      { ID := uuid, hash := some (cfg.hashFn plain),
        compressedHash := if 1 ≤ cfg.compressionAlgorithm then
          some (cfg.hashFn (strBytes (encryptAES128 mid (generateAES128Key keyBytes) iv)))
          else none,
        size := (strBytes (encryptAES128 mid (generateAES128Key keyBytes) iv)).length,
        compressed := cfg.compressionAlgorithm, expires := none, accessed := none,
        timestamp := now, key := some (generateAES128Key keyBytes) }
      uuid hfresh rfl
    exact handleFile_get_ok _ _ uuid _ (some (generateAES128Key keyBytes)) now' _
      hu hget2 (keyGateFails_same (generateAES128Key keyBytes)) rfl
      (fsExists_fsWrite_self files uuid _) (fsRead_fsWrite_self files uuid _)
  · unfold recoverPlaintext
    have hbs : bytesStr (strBytes (encryptAES128 mid (generateAES128Key keyBytes) iv))
        = encryptAES128 mid (generateAES128Key keyBytes) iv :=
      bytesStr_strBytes_hex (iv ++ aesGcmEncrypt
        (hexDecode (generateAES128Key keyBytes).data) iv mid)
    rw [hbs, decryptAES128_encryptAES128 mid (generateAES128Key keyBytes) iv hmidlt hiv12 hivb]
    show (if 1 ≤ cfg.compressionAlgorithm then decompressFn cfg.compressionAlgorithm mid
      else some mid) = some plain
    by_cases h1 : 1 ≤ cfg.compressionAlgorithm
    · rw [if_pos h1] at hmidrec ⊢
      exact hmidrec
    · rw [if_neg h1] at hmidrec ⊢
      rw [hmidrec]

theorem upload_retrieve_decrypt_roundtrip_witness :
    (∀ b ∈ [65], b < 256) ∧ (List.replicate 12 0).length = 12 ∧
    (∃ st' body,
      handleUpload cfgPlain (fun _ => none) ⟨[], []⟩
          { file := some [65], link := none, expires := none, encrypt := true }
          u0 (List.replicate 16 0) (List.replicate 12 0) 0
        = (.stored u0 (cfgPlain.hashFn [65])
            (some (generateAES128Key (List.replicate 16 0))), st') ∧
      handleFile st' "GET" u0 (some (generateAES128Key (List.replicate 16 0))) 1
        = (.ok body 2592000000
            (if 1 ≤ cfgPlain.compressionAlgorithm then
              contentEncoding (some cfgPlain.compressionAlgorithm) else none),
           ⟨dbSetAccessed st'.db u0 1, st'.files⟩) ∧
      recoverPlaintext (fun _ _ => none) cfgPlain.compressionAlgorithm
          (generateAES128Key (List.replicate 16 0)) body
        = some [65]) := by
  refine ⟨by decide, by decide, ?_⟩
  exact upload_retrieve_decrypt_roundtrip cfgPlain (fun _ => none) (fun _ _ => none)
    [] [] [65] u0 (List.replicate 16 0) (List.replicate 12 0) 0 1
    (by decide) (by decide) (by decide) (by decide)
    (by intro r hr; cases hr) (by intro r hr; cases hr) (by decide)
    (by intro h; exact absurd h (by decide))
    (by intro y hy; exact absurd hy (by simp [cfgPlain]))
    (by intro m f hm; exact absurd hm (by simp [cfgPlain]))

end StorageServer
